import Mathlib

/-!
Verification of the min-logger lock-free ring buffer and serializers.

The definitions below are a shallow embedding of the C++ sources:
* `src/min_logger/platform_implementations/lock_free_ring_buffer.cpp`
* `src/min_logger/min_logger.cpp`
Machine integers are modelled as `Nat` with explicit reductions modulo
`2^32` (for `uint32_t` values) and `2^64` (for `uint64_t` values) at the
points where the C code can overflow.  Bytes are modelled as `Nat`; the
byte buffer is a `List Nat`.  Since the embedding is single-threaded,
the `active_writers_` spin loop of `GetWriteTotal` always exits on its
first iteration and is therefore modelled by the loop body evaluated at
a quiescent state.
-/

/-- `2^32`, the wrap-around modulus of `uint32_t` (`OVERFLOW_32BITS` in the
C source). -/
def OVERFLOW_32BITS : Nat := 4294967296

/-- `2^64`, the wrap-around modulus of `uint64_t`. -/
def OVERFLOW_64BITS : Nat := 18446744073709551616

/-- State of `LockFreeRingBuffer` (lock_free_ring_buffer.h).  `buffer`
holds the byte array, `buffer_size` is `buffer_size_ : uint32_t` and
`total_write_size` is the current value of the `uint32_t` atomic counter
`total_write_size_` (always `< 2^32`). -/
structure LockFreeRingBuffer where
  buffer : List Nat
  buffer_size : Nat
  total_write_size : Nat
deriving Repr, DecidableEq

/-- Model of `memcpy(buf + off, data, data.length)`: overwrite the bytes
of `buf` starting at index `off` with `data`. -/
def copyBytes (buf : List Nat) (off : Nat) : List Nat → List Nat
  | [] => buf
  | b :: rest => copyBytes (buf.set off b) (off + 1) rest

/-- `LockFreeRingBuffer::Write` (lock_free_ring_buffer.cpp:25-59).
`old_size = total_write_size_.fetch_add(data_len)` is the pre-add counter
value; the data is copied at `old_size % buffer_size_`, split in two when
it runs past the end of the buffer. -/
def LockFreeRingBuffer.Write (rb : LockFreeRingBuffer) (data : List Nat) :
    LockFreeRingBuffer :=
  let old_size := rb.total_write_size
  let buffer_offset := old_size % rb.buffer_size
  let bytes_till_end := rb.buffer_size - buffer_offset
  let buffer' :=
    if bytes_till_end < data.length then
      copyBytes (copyBytes rb.buffer buffer_offset (data.take bytes_till_end))
        0 (data.drop bytes_till_end)
    else
      copyBytes rb.buffer buffer_offset data
  { rb with
    buffer := buffer'
    total_write_size := (old_size + data.length) % OVERFLOW_32BITS }

/-- State of `LockFreeRingBufferReader`: the 64-bit read position
`read_tail_` (always `< 2^64`). -/
structure LockFreeRingBufferReader where
  read_tail : Nat
deriving Repr, DecidableEq

/-- `LockFreeRingBufferReader::GetWriteTotal` (lock_free_ring_buffer.cpp:164-182)
at a quiescent buffer (`active_writers_ == 0`): promote the sampled 32-bit
counter to 64 bits using the upper half of `read_tail_`, bumping it by
`2^32` when the sample is below the lower half of `read_tail_`.
`read_tail_ & MASK_LOWER_32BITS` is `read_tail % 2^32` and
`read_tail_ & MASK_UPPER_32BITS` is the remainder of `read_tail`; the
64-bit additions wrap modulo `2^64`. -/
def LockFreeRingBufferReader.GetWriteTotal (rd : LockFreeRingBufferReader)
    (rb : LockFreeRingBuffer) : Nat :=
  let total_write_size := rb.total_write_size
  let tail_lower_32bit := rd.read_tail % OVERFLOW_32BITS
  let tail_upper_32bit := rd.read_tail - tail_lower_32bit
  if total_write_size < tail_lower_32bit then
    (tail_upper_32bit + OVERFLOW_32BITS + total_write_size) % OVERFLOW_64BITS
  else
    (tail_upper_32bit + total_write_size) % OVERFLOW_64BITS

/-- Result of `GetNewBytesResetIfOverflow`: return value, the `*new_bytes`
out-parameter, the updated reader, and the arguments of each overflow
callback invocation. -/
structure OverflowCheckResult where
  ok : Bool
  new_bytes : Nat
  reader : LockFreeRingBufferReader
  overflow_calls : List (Nat × Nat)
deriving Repr, DecidableEq

/-- `LockFreeRingBufferReader::GetNewBytesResetIfOverflow`
(lock_free_ring_buffer.cpp:150-162).  `cur_total - read_tail_` is a
wrapping `uint64_t` subtraction. -/
def LockFreeRingBufferReader.GetNewBytesResetIfOverflow
    (rd : LockFreeRingBufferReader) (rb : LockFreeRingBuffer) :
    OverflowCheckResult :=
  let cur_total := rd.GetWriteTotal rb
  let new_bytes := (OVERFLOW_64BITS + cur_total - rd.read_tail) % OVERFLOW_64BITS
  if new_bytes > rb.buffer_size then
    { ok := false, new_bytes := 0, reader := { read_tail := cur_total },
      overflow_calls := [(new_bytes, rb.buffer_size)] }
  else
    { ok := true, new_bytes := new_bytes, reader := rd, overflow_calls := [] }

/-- `LockFreeRingBufferReadResults` with the two slices materialised as the
byte lists they point at (`part1 = buffer_ + offset` with `part1_size`
bytes, `part2 = buffer_` with `part2_size` bytes). -/
structure LockFreeRingBufferReadResults where
  part1 : List Nat := []
  part2 : List Nat := []
deriving Repr, DecidableEq

/-- Result of `PeekAvailable`: return value, `*results`, the reader state
after the call and the overflow callback invocations. -/
structure PeekAvailableResult where
  ok : Bool
  results : LockFreeRingBufferReadResults
  reader : LockFreeRingBufferReader
  overflow_calls : List (Nat × Nat)
deriving Repr, DecidableEq

/-- `LockFreeRingBufferReader::PeekAvailable` (lock_free_ring_buffer.cpp:98-119).
On overflow the results stay cleared; otherwise the available bytes start at
`read_tail_ % buffer_size_` and wrap around the end of the buffer when they
run past it. -/
def LockFreeRingBufferReader.PeekAvailable (rd : LockFreeRingBufferReader)
    (rb : LockFreeRingBuffer) : PeekAvailableResult :=
  let g := rd.GetNewBytesResetIfOverflow rb
  if g.ok then
    let buffer_offset := g.reader.read_tail % rb.buffer_size
    let bytes_till_end := rb.buffer_size - buffer_offset
    let results :=
      if bytes_till_end < g.new_bytes then
        { part1 := (rb.buffer.drop buffer_offset).take bytes_till_end,
          part2 := rb.buffer.take (g.new_bytes - bytes_till_end) }
      else
        { part1 := (rb.buffer.drop buffer_offset).take g.new_bytes,
          part2 := [] }
    { ok := true, results := results, reader := g.reader,
      overflow_calls := g.overflow_calls }
  else
    { ok := false, results := {}, reader := g.reader,
      overflow_calls := g.overflow_calls }

/-- Result of `MarkRead`: return value, reader state after the call, and
the overflow callback invocations. -/
structure MarkReadResult where
  ok : Bool
  reader : LockFreeRingBufferReader
  overflow_calls : List (Nat × Nat)
deriving Repr, DecidableEq

/-- `LockFreeRingBufferReader::MarkRead` (lock_free_ring_buffer.cpp:121-132).
The local `new_bytes` is clamped to `num_bytes`, but the code then advances
`read_tail_` by the unclamped `num_bytes` (64-bit wrapping addition). -/
def LockFreeRingBufferReader.MarkRead (rd : LockFreeRingBufferReader)
    (rb : LockFreeRingBuffer) (num_bytes : Nat) : MarkReadResult :=
  let g := rd.GetNewBytesResetIfOverflow rb
  if g.ok then
    let new_bytes := if g.new_bytes > num_bytes then num_bytes else g.new_bytes
    let _ := new_bytes
    { ok := true,
      reader := { read_tail := (g.reader.read_tail + num_bytes) % OVERFLOW_64BITS },
      overflow_calls := g.overflow_calls }
  else
    { ok := false, reader := g.reader, overflow_calls := g.overflow_calls }

/-- `LockFreeRingBufferReader::LockFreeRingBufferReader`
(lock_free_ring_buffer.cpp:92-96): `read_tail_` starts at its member
initializer `0` and the constructor body sets it to `GetWriteTotal()`. -/
def LockFreeRingBufferReader.init (rb : LockFreeRingBuffer) :
    LockFreeRingBufferReader :=
  let rd : LockFreeRingBufferReader := { read_tail := 0 }
  { read_tail := rd.GetWriteTotal rb }

/-! ### Basic lemmas about the embedding -/

theorem copyBytes_length (data : List Nat) (buf : List Nat) (off : Nat) :
    (copyBytes buf off data).length = buf.length := by
  induction data generalizing buf off with
  | nil => rfl
  | cons b rest ih => simp [copyBytes, ih]

theorem copyBytes_get_lt (data : List Nat) (buf : List Nat) (off j : Nat)
    (h : j < off) : (copyBytes buf off data)[j]? = buf[j]? := by
  induction data generalizing buf off with
  | nil => rfl
  | cons b rest ih =>
    rw [copyBytes, ih _ _ (by omega)]
    exact List.getElem?_set_ne (by omega)

theorem copyBytes_get_ge (data : List Nat) (buf : List Nat) (off j : Nat)
    (h : off + data.length ≤ j) : (copyBytes buf off data)[j]? = buf[j]? := by
  induction data generalizing buf off with
  | nil => rfl
  | cons b rest ih =>
    simp only [List.length_cons] at h
    rw [copyBytes, ih (buf.set off b) (off + 1) (by omega)]
    exact List.getElem?_set_ne (by omega)

theorem copyBytes_get_in (data : List Nat) (buf : List Nat) (off j : Nat)
    (h1 : off ≤ j) (h2 : j < off + data.length) (h3 : off + data.length ≤ buf.length) :
    (copyBytes buf off data)[j]? = data[j - off]? := by
  induction data generalizing buf off with
  | nil => simp at h2; omega
  | cons b rest ih =>
    obtain ⟨k, rfl⟩ : ∃ k, j = off + k := ⟨j - off, by omega⟩
    simp only [List.length_cons] at h2 h3
    rw [copyBytes]
    match k with
    | 0 =>
      rw [copyBytes_get_lt rest _ (off + 1) (off + 0) (by omega)]
      simp only [Nat.add_zero, Nat.sub_self]
      rw [List.getElem?_set_eq_of_lt b (by omega)]
      simp
    | k + 1 =>
      have e1 : off + (k + 1) - (off + 1) = k := by omega
      have e2 : off + (k + 1) - off = k + 1 := by omega
      rw [ih (buf.set off b) (off + 1) (by omega) (by omega)
        (by simp only [List.length_set]; omega), e1, e2]
      simp

/-- When the reader's `read_tail` is at most the true number `T` of bytes
ever written and lags it by less than `2^32`, `GetWriteTotal` recovers `T`
exactly from the 32-bit counter `T % 2^32`. -/
theorem GetWriteTotal_eq_total (rb : LockFreeRingBuffer)
    (rd : LockFreeRingBufferReader) (T : Nat)
    (hcounter : rb.total_write_size = T % OVERFLOW_32BITS)
    (hRT : rd.read_tail ≤ T) (hlag : T < rd.read_tail + OVERFLOW_32BITS)
    (hT : T < OVERFLOW_64BITS) :
    rd.GetWriteTotal rb = T := by
  unfold LockFreeRingBufferReader.GetWriteTotal
  simp only [hcounter, OVERFLOW_32BITS, OVERFLOW_64BITS] at *
  split <;> omega

/-- C3: `get_write_total_64` promotes the sampled 32-bit counter to 64 bits
by reusing the upper 32 bits of `read_tail`, adding `2^32` exactly when the
sample is below the low 32 bits of `read_tail`; for a reader whose
`read_tail` lies just below the `2^32` boundary, a sample that crossed the
boundary yields exactly `2^32 + new_low`. -/
theorem c3_write_total_promotion (rb : LockFreeRingBuffer)
    (rd : LockFreeRingBufferReader)
    (h32 : rb.total_write_size < OVERFLOW_32BITS)
    (h64 : rd.read_tail < OVERFLOW_64BITS) :
    rd.GetWriteTotal rb =
      (rd.read_tail / OVERFLOW_32BITS * OVERFLOW_32BITS + rb.total_write_size +
        (if rb.total_write_size < rd.read_tail % OVERFLOW_32BITS then
          OVERFLOW_32BITS else 0)) % OVERFLOW_64BITS ∧
    (rd.read_tail < OVERFLOW_32BITS → rb.total_write_size < rd.read_tail →
      rd.GetWriteTotal rb = OVERFLOW_32BITS + rb.total_write_size) := by
  unfold LockFreeRingBufferReader.GetWriteTotal
  simp only [OVERFLOW_32BITS, OVERFLOW_64BITS] at *
  constructor
  · split <;> omega
  · intro hr ht
    split <;> omega

/-- Witness for C3 at `read_tail = 2^32 - 6` and counter sample `5`. -/
theorem c3_write_total_promotion_witness :
    (5 : Nat) < OVERFLOW_32BITS ∧ (4294967290 : Nat) < OVERFLOW_64BITS ∧
    (⟨4294967290⟩ : LockFreeRingBufferReader).GetWriteTotal ⟨[], 16, 5⟩ =
      OVERFLOW_32BITS + 5 :=
  ⟨by decide, by decide,
    (c3_write_total_promotion ⟨[], 16, 5⟩ ⟨4294967290⟩ (by decide) (by decide)).2
      (by decide) (by decide)⟩

/-- C2: if the bytes written since the reader last advanced exceed the
buffer size `N`, the next `PeekAvailable` returns `false`, invokes the
overflow callback exactly once with `(new_bytes, N)`, resets the reader's
tail to the current 64-bit write total and reports zero available bytes. -/
theorem c2_overrun_detection (N T R : Nat) (buf : List Nat)
    (hRT : R ≤ T) (hlag : T < R + OVERFLOW_32BITS) (hT : T < OVERFLOW_64BITS)
    (hover : T - R > N) :
    ((⟨R⟩ : LockFreeRingBufferReader).PeekAvailable
        ⟨buf, N, T % OVERFLOW_32BITS⟩).ok = false ∧
    ((⟨R⟩ : LockFreeRingBufferReader).PeekAvailable
        ⟨buf, N, T % OVERFLOW_32BITS⟩).results = {} ∧
    ((⟨R⟩ : LockFreeRingBufferReader).PeekAvailable
        ⟨buf, N, T % OVERFLOW_32BITS⟩).reader.read_tail = T ∧
    ((⟨R⟩ : LockFreeRingBufferReader).PeekAvailable
        ⟨buf, N, T % OVERFLOW_32BITS⟩).overflow_calls = [(T - R, N)] := by
  have hgw : (⟨R⟩ : LockFreeRingBufferReader).GetWriteTotal
      ⟨buf, N, T % OVERFLOW_32BITS⟩ = T :=
    GetWriteTotal_eq_total _ _ T rfl hRT hlag hT
  have hnb : (OVERFLOW_64BITS + T - R) % OVERFLOW_64BITS = T - R := by
    simp only [OVERFLOW_64BITS] at *; omega
  simp only [LockFreeRingBufferReader.PeekAvailable,
    LockFreeRingBufferReader.GetNewBytesResetIfOverflow, hgw, hnb,
    if_pos hover]
  simp

/-- Witness for C2: one byte read, then 100 bytes written into a 32-byte
buffer; the overflow callback fires with `(100, 32)`. -/
theorem c2_overrun_detection_witness :
    (1 : Nat) ≤ 101 ∧ (101 : Nat) < 1 + OVERFLOW_32BITS ∧
    (101 : Nat) < OVERFLOW_64BITS ∧ (101 : Nat) - 1 > 32 ∧
    (((⟨1⟩ : LockFreeRingBufferReader).PeekAvailable
        ⟨List.replicate 32 0, 32, 101 % OVERFLOW_32BITS⟩).ok = false ∧
      ((⟨1⟩ : LockFreeRingBufferReader).PeekAvailable
        ⟨List.replicate 32 0, 32, 101 % OVERFLOW_32BITS⟩).results = {} ∧
      ((⟨1⟩ : LockFreeRingBufferReader).PeekAvailable
        ⟨List.replicate 32 0, 32, 101 % OVERFLOW_32BITS⟩).reader.read_tail = 101 ∧
      ((⟨1⟩ : LockFreeRingBufferReader).PeekAvailable
        ⟨List.replicate 32 0, 32, 101 % OVERFLOW_32BITS⟩).overflow_calls =
        [(101 - 1, 32)]) :=
  ⟨by decide, by decide, by decide, by decide,
    c2_overrun_detection 32 101 1 (List.replicate 32 0) (by decide) (by decide)
      (by decide) (by decide)⟩

/-- C4: evaluation of `MarkRead` at the failing input.  In a 16-byte
buffer with 4 bytes written, `MarkRead 10` succeeds but advances
`read_tail` to `10`, past the observed write total `4` (the clamped
local variable in the source is computed and then discarded), and the
following `PeekAvailable` spuriously reports an overflow of about
`2^32` bytes. -/
theorem c4_markread_unclamped_eval :
    (((⟨0⟩ : LockFreeRingBufferReader).MarkRead
        (LockFreeRingBuffer.Write ⟨List.replicate 16 0, 16, 0⟩ [1, 2, 3, 4])
        10).ok = true) ∧
    ((⟨0⟩ : LockFreeRingBufferReader).MarkRead
        (LockFreeRingBuffer.Write ⟨List.replicate 16 0, 16, 0⟩ [1, 2, 3, 4])
        10).reader.read_tail = 10 ∧
    (LockFreeRingBuffer.Write ⟨List.replicate 16 0, 16, 0⟩
        [1, 2, 3, 4]).total_write_size = 4 ∧
    ((((⟨0⟩ : LockFreeRingBufferReader).MarkRead
        (LockFreeRingBuffer.Write ⟨List.replicate 16 0, 16, 0⟩ [1, 2, 3, 4])
        10).reader.PeekAvailable
        (LockFreeRingBuffer.Write ⟨List.replicate 16 0, 16, 0⟩ [1, 2, 3, 4])).ok
      = false) ∧
    ((((⟨0⟩ : LockFreeRingBufferReader).MarkRead
        (LockFreeRingBuffer.Write ⟨List.replicate 16 0, 16, 0⟩ [1, 2, 3, 4])
        10).reader.PeekAvailable
        (LockFreeRingBuffer.Write ⟨List.replicate 16 0, 16, 0⟩ [1, 2, 3, 4])).overflow_calls
      = [(4294967290, 16)]) := by
  decide

/-! ### A single-writer system of one ring buffer and one reader

`RingSys` folds a sequence of events over the buffer: a `write w` event is
a producer call to `LockFreeRingBuffer::Write`, and a `readRound` event is
the consumer pattern used throughout the repository's tests and example
consumer tasks: `PeekAvailable`, process both returned slices, then
`MarkRead(results.Size())`. `collected` accumulates every byte the reader
has observed through the returned slices. -/

structure RingSys where
  rb : LockFreeRingBuffer
  reader : LockFreeRingBufferReader
  collected : List Nat
deriving Repr, DecidableEq

inductive RingEvent where
  | write (w : List Nat)
  | readRound
deriving Repr, DecidableEq

def RingSys.step (s : RingSys) : RingEvent → RingSys
  | .write w => { s with rb := s.rb.Write w }
  | .readRound =>
    let p := s.reader.PeekAvailable s.rb
    if p.ok then
      let m := p.reader.MarkRead s.rb (p.results.part1.length + p.results.part2.length)
      { s with
        reader := m.reader
        collected := s.collected ++ p.results.part1 ++ p.results.part2 }
    else
      { s with reader := p.reader }

def RingSys.run (s : RingSys) (es : List RingEvent) : RingSys :=
  es.foldl RingSys.step s

/-- The concatenation of all payloads written by the events, in order. -/
def writtenBytes : List RingEvent → List Nat
  | [] => []
  | .write w :: es => w ++ writtenBytes es
  | .readRound :: es => writtenBytes es

/-- Invariant of the no-overrun regime: `stream` is the byte stream ever
written; the counter equals its length, the reader's tail never exceeds
it, `collected` is exactly the prefix of the stream up to the tail, and
the buffer stores the stream bytes at their in-buffer positions. -/
def RingSys.GoodInv (N : Nat) (stream : List Nat) (s : RingSys) : Prop :=
  s.rb.buffer_size = N ∧
  s.rb.buffer.length = N ∧
  s.rb.total_write_size = stream.length ∧
  s.reader.read_tail ≤ stream.length ∧
  s.collected = stream.take s.reader.read_tail ∧
  ∀ p, p < stream.length → s.rb.buffer[p]? = stream[p]?

theorem GoodInv_write (N : Nat) (stream w : List Nat) (s : RingSys)
    (hinv : s.GoodInv N stream) (hN32 : N < OVERFLOW_32BITS)
    (htot : stream.length + w.length ≤ N) :
    (s.step (.write w)).GoodInv N (stream ++ w) := by
  obtain ⟨hbs, hbl, hcnt, hrt, hcol, hcontent⟩ := hinv
  have hT32 : stream.length < OVERFLOW_32BITS := by omega
  rcases Nat.eq_zero_or_pos w.length with hw0 | hwpos
  · obtain rfl : w = [] := List.length_eq_zero.mp hw0
    refine ⟨hbs, ?_, ?_, ?_, ?_, ?_⟩ <;>
      simp only [RingSys.step, LockFreeRingBuffer.Write, hcnt, hbs,
        List.length_nil, List.append_nil, Nat.add_zero]
    · simpa [Nat.mod_self, Nat.sub_lt_iff_lt_add, copyBytes] using hbl
    · exact Nat.mod_eq_of_lt hT32
    · exact hrt
    · exact hcol
    · intro p hp
      simpa [copyBytes] using hcontent p hp
  · have hTN : stream.length < N := by omega
    have hoff : stream.length % N = stream.length := Nat.mod_eq_of_lt hTN
    have hnowrap : ¬ (N - stream.length % N < w.length) := by omega
    refine ⟨hbs, ?_, ?_, ?_, ?_, ?_⟩ <;>
      simp only [RingSys.step, LockFreeRingBuffer.Write, hcnt, hbs,
        if_neg hnowrap, List.length_append]
    · rw [copyBytes_length, hbl]
    · exact Nat.mod_eq_of_lt (by omega)
    · omega
    · rw [hcol, List.take_append_of_le_length (by omega)]
    · intro p hp
      rcases Nat.lt_or_ge p stream.length with hplt | hpge
      · rw [copyBytes_get_lt _ _ _ _ (by omega), hcontent p hplt,
          List.getElem?_append]
        simp [hplt]
      · rw [copyBytes_get_in _ _ _ _ (by omega) (by omega) (by omega),
          List.getElem?_append_right (by omega), hoff]

/-- In the no-overrun regime, `GetNewBytesResetIfOverflow` succeeds and
reports exactly the bytes not yet consumed. -/
theorem GoodInv_getNewBytes (N : Nat) (stream : List Nat) (s : RingSys)
    (hinv : s.GoodInv N stream) (hN32 : N < OVERFLOW_32BITS)
    (hTN : stream.length ≤ N) :
    s.reader.GetNewBytesResetIfOverflow s.rb =
      { ok := true, new_bytes := stream.length - s.reader.read_tail,
        reader := s.reader, overflow_calls := [] } := by
  obtain ⟨hbs, hbl, hcnt, hrt, hcol, hcontent⟩ := hinv
  have hgw : s.reader.GetWriteTotal s.rb = stream.length := by
    refine GetWriteTotal_eq_total _ _ _ ?_ hrt ?_ ?_
    · rw [hcnt, Nat.mod_eq_of_lt (by omega)]
    · omega
    · simp only [OVERFLOW_32BITS, OVERFLOW_64BITS] at *; omega
  have hnb : (OVERFLOW_64BITS + stream.length - s.reader.read_tail) %
      OVERFLOW_64BITS = stream.length - s.reader.read_tail := by
    simp only [OVERFLOW_32BITS, OVERFLOW_64BITS] at *; omega
  simp only [LockFreeRingBufferReader.GetNewBytesResetIfOverflow, hgw, hnb, hbs]
  rw [if_neg (by omega)]

/-- In the no-overrun regime, `PeekAvailable` succeeds and the two
returned slices concatenate to exactly the bytes written since the
reader's tail. -/
theorem GoodInv_peek (N : Nat) (stream : List Nat) (s : RingSys)
    (hinv : s.GoodInv N stream) (hN32 : N < OVERFLOW_32BITS)
    (hTN : stream.length ≤ N) :
    (s.reader.PeekAvailable s.rb).ok = true ∧
    (s.reader.PeekAvailable s.rb).results.part1 ++
      (s.reader.PeekAvailable s.rb).results.part2 =
      stream.drop s.reader.read_tail ∧
    (s.reader.PeekAvailable s.rb).reader = s.reader ∧
    (s.reader.PeekAvailable s.rb).overflow_calls = [] := by
  have hg := GoodInv_getNewBytes N stream s hinv hN32 hTN
  obtain ⟨hbs, hbl, hcnt, hrt, hcol, hcontent⟩ := hinv
  simp only [LockFreeRingBufferReader.PeekAvailable, hg, if_true]
  refine ⟨trivial, ?_, trivial, trivial⟩
  rcases Nat.lt_or_ge s.reader.read_tail N with hRN | hRN
  · have hoff : s.reader.read_tail % N = s.reader.read_tail :=
      Nat.mod_eq_of_lt hRN
    rw [hbs, hoff]
    rw [if_neg (show ¬ (N - s.reader.read_tail <
      stream.length - s.reader.read_tail) from by omega)]
    simp only [List.append_nil]
    apply List.ext_getElem?
    intro i
    rw [List.getElem?_take]
    rcases Nat.lt_or_ge i (stream.length - s.reader.read_tail) with hi | hi
    · rw [if_pos hi, List.getElem?_drop, List.getElem?_drop,
        hcontent _ (by omega)]
    · rw [if_neg (show ¬ (i < stream.length - s.reader.read_tail)
        from by omega), Eq.comm]
      exact List.getElem?_eq_none (by rw [List.length_drop]; omega)
  · have hRT : s.reader.read_tail = N := by omega
    have hT : stream.length = N := by omega
    have hdrop : stream.drop N = [] := List.drop_eq_nil_of_le (by omega)
    simp [hbs, hRT, hT, hdrop]

/-- A read round in the no-overrun regime preserves the invariant and
brings the reader's tail up to the full stream length. -/
theorem GoodInv_readRound (N : Nat) (stream : List Nat) (s : RingSys)
    (hinv : s.GoodInv N stream) (hN32 : N < OVERFLOW_32BITS)
    (hTN : stream.length ≤ N) :
    (s.step .readRound).GoodInv N stream := by
  have hp := GoodInv_peek N stream s hinv hN32 hTN
  have hg := GoodInv_getNewBytes N stream s hinv hN32 hTN
  obtain ⟨hok, hcat, hrd, hov⟩ := hp
  obtain ⟨hbs, hbl, hcnt, hrt, hcol, hcontent⟩ := hinv
  have hn : (s.reader.PeekAvailable s.rb).results.part1.length +
      (s.reader.PeekAvailable s.rb).results.part2.length =
      stream.length - s.reader.read_tail := by
    rw [← List.length_append, hcat, List.length_drop]
  have hm : (s.reader.PeekAvailable s.rb).reader.MarkRead s.rb
      ((s.reader.PeekAvailable s.rb).results.part1.length +
        (s.reader.PeekAvailable s.rb).results.part2.length) =
      { ok := true, reader := ⟨stream.length⟩, overflow_calls := [] } := by
    rw [hrd, hn]
    simp only [LockFreeRingBufferReader.MarkRead, hg, if_true]
    have : (s.reader.read_tail + (stream.length - s.reader.read_tail)) %
        OVERFLOW_64BITS = stream.length := by
      simp only [OVERFLOW_32BITS, OVERFLOW_64BITS] at *; omega
    simp [this]
  simp only [RingSys.step, hok, if_true, hm]
  refine ⟨hbs, hbl, hcnt, le_refl _, ?_, hcontent⟩
  rw [List.append_assoc, hcat, hcol, List.take_append_drop,
    List.take_length]

/-- Running any event sequence from an invariant state in the
no-overrun regime reestablishes the invariant for the extended stream. -/
theorem GoodInv_run (N : Nat) (es : List RingEvent) (stream : List Nat)
    (s : RingSys) (hinv : s.GoodInv N stream) (hN32 : N < OVERFLOW_32BITS)
    (htot : stream.length + (writtenBytes es).length ≤ N) :
    (s.run es).GoodInv N (stream ++ writtenBytes es) := by
  induction es generalizing stream s with
  | nil => simpa [RingSys.run, writtenBytes] using hinv
  | cons e es ih =>
    cases e with
    | write w =>
      have hstep := GoodInv_write N stream w s hinv hN32
        (by simp only [writtenBytes, List.length_append] at htot; omega)
      have := ih (stream ++ w) (s.step (.write w)) hstep
        (by simp only [writtenBytes, List.length_append] at htot ⊢; omega)
      simpa [RingSys.run, writtenBytes, List.foldl_cons, List.append_assoc]
        using this
    | readRound =>
      have hstep := GoodInv_readRound N stream s hinv hN32 (by omega)
      have := ih stream (s.step .readRound) hstep
        (by simpa [writtenBytes] using htot)
      simpa [RingSys.run, writtenBytes, List.foldl_cons] using this

/-- C1: for a single writer and any interleaving of writes with reader
rounds (peek both slices, then mark them read) whose total written size
fits in the buffer, the bytes the reader has collected followed by the
bytes a final peek still shows are exactly the concatenation of the
written sequences, in order. -/
theorem c1_write_peek_round_trip (N : Nat) (buf0 : List Nat)
    (es : List RingEvent) (hN0 : 0 < N) (hN32 : N < OVERFLOW_32BITS)
    (hbuf : buf0.length = N)
    (hws : ∀ w, RingEvent.write w ∈ es → w.length < N)
    (htot : (writtenBytes es).length ≤ N) :
    (RingSys.run ⟨⟨buf0, N, 0⟩, ⟨0⟩, []⟩ es).collected ++
      (((RingSys.run ⟨⟨buf0, N, 0⟩, ⟨0⟩, []⟩ es).reader.PeekAvailable
        (RingSys.run ⟨⟨buf0, N, 0⟩, ⟨0⟩, []⟩ es).rb).results.part1 ++
       ((RingSys.run ⟨⟨buf0, N, 0⟩, ⟨0⟩, []⟩ es).reader.PeekAvailable
        (RingSys.run ⟨⟨buf0, N, 0⟩, ⟨0⟩, []⟩ es).rb).results.part2) =
      writtenBytes es := by
  have hinv0 : (⟨⟨buf0, N, 0⟩, ⟨0⟩, []⟩ : RingSys).GoodInv N [] := by
    exact ⟨rfl, hbuf, rfl, by simp, by simp, by simp⟩
  have hinv := GoodInv_run N es [] _ hinv0 hN32 (by simpa using htot)
  rw [List.nil_append] at hinv
  have hp := GoodInv_peek N (writtenBytes es) _ hinv hN32 htot
  obtain ⟨hok, hcat, hrd, hov⟩ := hp
  obtain ⟨hbs, hbl, hcnt, hrt, hcol, hcontent⟩ := hinv
  rw [hcat, hcol, List.take_append_drop]

/-- Slice `[off, N)` of a non-wrapping copy at `off` returns the copied
bytes. -/
theorem straight_copy_slice (buf w : List Nat) (N off : Nat)
    (hbuf : buf.length = N) (hoff : off < N) (hts : off + w.length ≤ N) :
    ((copyBytes buf off w).drop off).take w.length = w := by
  apply List.ext_getElem?
  intro i
  rw [List.getElem?_take]
  rcases Nat.lt_or_ge i w.length with hi | hi
  · rw [if_pos hi, List.getElem?_drop,
      copyBytes_get_in _ _ _ _ (by omega) (by omega) (by omega)]
    congr 1
    omega
  · rw [if_neg (show ¬ i < w.length from by omega), Eq.comm]
    exact List.getElem?_eq_none (by omega)

/-- Slice `[off, N)` of a wrapping write holds the first `N - off` bytes
of the payload. -/
theorem wrapped_copy_part1 (buf w : List Nat) (N off : Nat)
    (hbuf : buf.length = N) (hoff : off < N) (hts : N - off ≤ w.length)
    (hlen : w.length < N) :
    (((copyBytes (copyBytes buf off (w.take (N - off))) 0
        (w.drop (N - off))).drop off).take (N - off)) = w.take (N - off) := by
  apply List.ext_getElem?
  intro i
  rw [List.getElem?_take]
  rcases Nat.lt_or_ge i (N - off) with hi | hi
  · rw [if_pos hi, List.getElem?_drop,
      copyBytes_get_ge _ _ _ _ (by simp only [List.length_drop]; omega),
      copyBytes_get_in _ _ _ _ (by omega)
        (by simp only [List.length_take]; omega)
        (by simp only [List.length_take]; omega),
      List.getElem?_take, if_pos (by omega), List.getElem?_take,
      if_pos (by omega)]
    congr 1
    omega
  · rw [if_neg (show ¬ i < N - off from by omega), Eq.comm]
    exact List.getElem?_eq_none (by simp only [List.length_take]; omega)

/-- Slice `[0, len - (N - off))` of a wrapping write holds the remaining
payload bytes. -/
theorem wrapped_copy_part2 (buf w : List Nat) (N off : Nat)
    (hbuf : buf.length = N) (hoff : off < N) (hts : N - off ≤ w.length)
    (hlen : w.length < N) :
    ((copyBytes (copyBytes buf off (w.take (N - off))) 0
        (w.drop (N - off))).take (w.length - (N - off))) =
      w.drop (N - off) := by
  apply List.ext_getElem?
  intro i
  rw [List.getElem?_take]
  rcases Nat.lt_or_ge i (w.length - (N - off)) with hi | hi
  · rw [if_pos hi,
      copyBytes_get_in _ _ _ _ (by omega)
        (by simp only [List.length_drop]; omega)
        (by rw [List.length_drop, copyBytes_length]; omega)]
    simp
  · rw [if_neg (show ¬ i < w.length - (N - off) from by omega), Eq.comm]
    exact List.getElem?_eq_none (by simp only [List.length_drop]; omega)

/-- A reader synchronised with the 32-bit counter (`read_tail = t`) that
peeks right after a single write observes exactly that write: `part1` is
the payload prefix that fit before the end of the buffer and `part2` the
wrapped remainder (empty when the write did not wrap). -/
theorem synced_write_peek (N t : Nat) (buf w : List Nat)
    (hN0 : 0 < N) (hN32 : N < OVERFLOW_32BITS) (ht : t < OVERFLOW_32BITS)
    (hbuf : buf.length = N) (hlen : w.length < N) :
    ((⟨t⟩ : LockFreeRingBufferReader).PeekAvailable
        (LockFreeRingBuffer.Write ⟨buf, N, t⟩ w)).ok = true ∧
    ((⟨t⟩ : LockFreeRingBufferReader).PeekAvailable
        (LockFreeRingBuffer.Write ⟨buf, N, t⟩ w)).results.part1 =
      w.take (N - t % N) ∧
    ((⟨t⟩ : LockFreeRingBufferReader).PeekAvailable
        (LockFreeRingBuffer.Write ⟨buf, N, t⟩ w)).results.part2 =
      w.drop (N - t % N) := by
  have hofflt : t % N < N := Nat.mod_lt _ hN0
  have hgw : (⟨t⟩ : LockFreeRingBufferReader).GetWriteTotal
      (LockFreeRingBuffer.Write ⟨buf, N, t⟩ w) = t + w.length := by
    refine GetWriteTotal_eq_total _ _ _ rfl (Nat.le_add_right _ _) ?_ ?_
    · show t + w.length < t + OVERFLOW_32BITS
      omega
    · show t + w.length < OVERFLOW_64BITS
      simp only [OVERFLOW_32BITS, OVERFLOW_64BITS] at *
      omega
  have hnb : (OVERFLOW_64BITS + (t + w.length) - t) % OVERFLOW_64BITS =
      w.length := by
    simp only [OVERFLOW_32BITS, OVERFLOW_64BITS] at *
    omega
  have hg : (⟨t⟩ : LockFreeRingBufferReader).GetNewBytesResetIfOverflow
      (LockFreeRingBuffer.Write ⟨buf, N, t⟩ w) =
      { ok := true, new_bytes := w.length, reader := ⟨t⟩,
        overflow_calls := [] } := by
    simp only [LockFreeRingBufferReader.GetNewBytesResetIfOverflow, hgw]
    have hbsz : (LockFreeRingBuffer.Write ⟨buf, N, t⟩ w).buffer_size = N :=
      rfl
    rw [hnb, hbsz, if_neg (show ¬ w.length > N from by omega)]
  rcases Nat.lt_or_ge (N - t % N) w.length with hwrap | hnowrap
  · have hW : LockFreeRingBuffer.Write ⟨buf, N, t⟩ w =
        ⟨copyBytes (copyBytes buf (t % N) (w.take (N - t % N))) 0
          (w.drop (N - t % N)), N, (t + w.length) % OVERFLOW_32BITS⟩ := by
      simp only [LockFreeRingBuffer.Write, if_pos hwrap]
    rw [hW] at hg ⊢
    simp only [LockFreeRingBufferReader.PeekAvailable, hg, if_true]
    split_ifs
    exact ⟨trivial,
      wrapped_copy_part1 buf w N (t % N) hbuf hofflt (by omega) hlen,
      wrapped_copy_part2 buf w N (t % N) hbuf hofflt (by omega) hlen⟩
  · have hW : LockFreeRingBuffer.Write ⟨buf, N, t⟩ w =
        ⟨copyBytes buf (t % N) w, N,
          (t + w.length) % OVERFLOW_32BITS⟩ := by
      simp only [LockFreeRingBuffer.Write,
        if_neg (show ¬ N - t % N < w.length from by omega)]
    rw [hW] at hg ⊢
    simp only [LockFreeRingBufferReader.PeekAvailable, hg, if_true]
    split_ifs with hcond
    · omega
    · refine ⟨trivial, ?_, ?_⟩
      · rw [List.take_of_length_le (show w.length ≤ N - t % N from hnowrap)]
        exact straight_copy_slice buf w N (t % N) hbuf hofflt (by omega)
      · rw [List.drop_eq_nil_of_le (show w.length ≤ N - t % N from hnowrap)]

/-- Witness for C1: writes of `"Hello"` and `"World"` into a 16-byte
buffer with a read round in between the final peek. -/
theorem c1_write_peek_round_trip_witness :
    (0 : Nat) < 16 ∧ (16 : Nat) < OVERFLOW_32BITS ∧
    (List.replicate 16 0 : List Nat).length = 16 ∧
    (∀ w, RingEvent.write w ∈
        [RingEvent.write [72, 101, 108, 108, 111], RingEvent.readRound,
          RingEvent.write [87, 111, 114, 108, 100]] → w.length < 16) ∧
    (writtenBytes [RingEvent.write [72, 101, 108, 108, 111],
        RingEvent.readRound,
        RingEvent.write [87, 111, 114, 108, 100]]).length ≤ 16 ∧
    ((RingSys.run ⟨⟨List.replicate 16 0, 16, 0⟩, ⟨0⟩, []⟩
        [RingEvent.write [72, 101, 108, 108, 111], RingEvent.readRound,
          RingEvent.write [87, 111, 114, 108, 100]]).collected ++
      (((RingSys.run ⟨⟨List.replicate 16 0, 16, 0⟩, ⟨0⟩, []⟩
          [RingEvent.write [72, 101, 108, 108, 111], RingEvent.readRound,
            RingEvent.write [87, 111, 114, 108, 100]]).reader.PeekAvailable
        (RingSys.run ⟨⟨List.replicate 16 0, 16, 0⟩, ⟨0⟩, []⟩
          [RingEvent.write [72, 101, 108, 108, 111], RingEvent.readRound,
            RingEvent.write [87, 111, 114, 108, 100]]).rb).results.part1 ++
       ((RingSys.run ⟨⟨List.replicate 16 0, 16, 0⟩, ⟨0⟩, []⟩
          [RingEvent.write [72, 101, 108, 108, 111], RingEvent.readRound,
            RingEvent.write [87, 111, 114, 108, 100]]).reader.PeekAvailable
        (RingSys.run ⟨⟨List.replicate 16 0, 16, 0⟩, ⟨0⟩, []⟩
          [RingEvent.write [72, 101, 108, 108, 111], RingEvent.readRound,
            RingEvent.write [87, 111, 114, 108, 100]]).rb).results.part2) =
      writtenBytes [RingEvent.write [72, 101, 108, 108, 111],
        RingEvent.readRound, RingEvent.write [87, 111, 114, 108, 100]]) :=
  ⟨by decide, by decide, by decide,
    (by
      intro w hw
      simp only [List.mem_cons, List.not_mem_nil, or_false] at hw
      rcases hw with h | h | h <;> cases h <;> decide),
    by decide,
    c1_write_peek_round_trip 16 (List.replicate 16 0)
      [RingEvent.write [72, 101, 108, 108, 111], RingEvent.readRound,
        RingEvent.write [87, 111, 114, 108, 100]]
      (by decide) (by decide) (by decide)
      (by
        intro w hw
        simp only [List.mem_cons, List.not_mem_nil, or_false] at hw
        rcases hw with h | h | h <;> cases h <;> decide)
      (by decide)⟩

/-- C5: a write whose start offset plus length exceeds the buffer size
copies its first `tail_space = N - offset` bytes to `buffer[offset..N)`
and the rest to `buffer[0..)`; a synchronised reader's peek returns these
two slices, and concatenated they equal the original payload. -/
theorem c5_wrap_write_round_trip (N t : Nat) (buf w : List Nat)
    (hN0 : 0 < N) (hN32 : N < OVERFLOW_32BITS) (ht : t < OVERFLOW_32BITS)
    (hbuf : buf.length = N) (hlen : w.length < N)
    (hwrap : N < t % N + w.length) :
    ((⟨t⟩ : LockFreeRingBufferReader).PeekAvailable
        (LockFreeRingBuffer.Write ⟨buf, N, t⟩ w)).ok = true ∧
    ((⟨t⟩ : LockFreeRingBufferReader).PeekAvailable
        (LockFreeRingBuffer.Write ⟨buf, N, t⟩ w)).results.part1 =
      w.take (N - t % N) ∧
    ((⟨t⟩ : LockFreeRingBufferReader).PeekAvailable
        (LockFreeRingBuffer.Write ⟨buf, N, t⟩ w)).results.part2 =
      w.drop (N - t % N) ∧
    ((⟨t⟩ : LockFreeRingBufferReader).PeekAvailable
        (LockFreeRingBuffer.Write ⟨buf, N, t⟩ w)).results.part1 ++
      ((⟨t⟩ : LockFreeRingBufferReader).PeekAvailable
        (LockFreeRingBuffer.Write ⟨buf, N, t⟩ w)).results.part2 = w := by
  obtain ⟨hok, h1, h2⟩ := synced_write_peek N t buf w hN0 hN32 ht hbuf hlen
  exact ⟨hok, h1, h2, by rw [h1, h2, List.take_append_drop]⟩

/-- Witness for C5: 16-byte buffer, offset 8, 12-byte payload (the
scenario of `TestBufferWraparound` in the repository's tests). -/
theorem c5_wrap_write_round_trip_witness :
    (0 : Nat) < 16 ∧ (16 : Nat) < OVERFLOW_32BITS ∧
    (8 : Nat) < OVERFLOW_32BITS ∧
    (List.replicate 16 0 : List Nat).length = 16 ∧
    ([65, 66, 67, 68, 69, 70, 71, 72, 73, 74, 75, 76] : List Nat).length
      < 16 ∧
    16 < 8 % 16 +
      ([65, 66, 67, 68, 69, 70, 71, 72, 73, 74, 75, 76] : List Nat).length ∧
    (((⟨8⟩ : LockFreeRingBufferReader).PeekAvailable
        (LockFreeRingBuffer.Write ⟨List.replicate 16 0, 16, 8⟩
          [65, 66, 67, 68, 69, 70, 71, 72, 73, 74, 75, 76])).ok = true ∧
      ((⟨8⟩ : LockFreeRingBufferReader).PeekAvailable
        (LockFreeRingBuffer.Write ⟨List.replicate 16 0, 16, 8⟩
          [65, 66, 67, 68, 69, 70, 71, 72, 73, 74, 75, 76])).results.part1 =
        List.take (16 - 8 % 16)
          [65, 66, 67, 68, 69, 70, 71, 72, 73, 74, 75, 76] ∧
      ((⟨8⟩ : LockFreeRingBufferReader).PeekAvailable
        (LockFreeRingBuffer.Write ⟨List.replicate 16 0, 16, 8⟩
          [65, 66, 67, 68, 69, 70, 71, 72, 73, 74, 75, 76])).results.part2 =
        List.drop (16 - 8 % 16)
          [65, 66, 67, 68, 69, 70, 71, 72, 73, 74, 75, 76] ∧
      ((⟨8⟩ : LockFreeRingBufferReader).PeekAvailable
        (LockFreeRingBuffer.Write ⟨List.replicate 16 0, 16, 8⟩
          [65, 66, 67, 68, 69, 70, 71, 72, 73, 74, 75, 76])).results.part1 ++
        ((⟨8⟩ : LockFreeRingBufferReader).PeekAvailable
          (LockFreeRingBuffer.Write ⟨List.replicate 16 0, 16, 8⟩
            [65, 66, 67, 68, 69, 70, 71, 72, 73, 74, 75, 76])).results.part2 =
        [65, 66, 67, 68, 69, 70, 71, 72, 73, 74, 75, 76]) :=
  ⟨by decide, by decide, by decide, by decide, by decide, by decide,
    c5_wrap_write_round_trip 16 8 (List.replicate 16 0)
      [65, 66, 67, 68, 69, 70, 71, 72, 73, 74, 75, 76]
      (by decide) (by decide) (by decide) (by decide) (by decide)
      (by decide)⟩

theorem Write_buffer_size (rb : LockFreeRingBuffer) (w : List Nat) :
    (rb.Write w).buffer_size = rb.buffer_size := rfl

theorem Write_buffer_length (rb : LockFreeRingBuffer) (w : List Nat) :
    (rb.Write w).buffer.length = rb.buffer.length := by
  simp only [LockFreeRingBuffer.Write]
  split <;> simp only [copyBytes_length]

theorem Write_counter_lt (rb : LockFreeRingBuffer) (w : List Nat) :
    (rb.Write w).total_write_size < OVERFLOW_32BITS :=
  Nat.mod_lt _ (by simp [OVERFLOW_32BITS])

/-- Size, capacity and counter range are invariant under any sequence of
writes. -/
theorem foldl_Write_invariants (ws : List (List Nat))
    (rb : LockFreeRingBuffer)
    (hc : rb.total_write_size < OVERFLOW_32BITS) :
    (List.foldl LockFreeRingBuffer.Write rb ws).buffer_size =
      rb.buffer_size ∧
    (List.foldl LockFreeRingBuffer.Write rb ws).buffer.length =
      rb.buffer.length ∧
    (List.foldl LockFreeRingBuffer.Write rb ws).total_write_size <
      OVERFLOW_32BITS := by
  induction ws generalizing rb with
  | nil => exact ⟨rfl, rfl, hc⟩
  | cons w ws ih =>
    obtain ⟨h1, h2, h3⟩ := ih (rb.Write w) (Write_counter_lt rb w)
    exact ⟨by rw [List.foldl_cons, h1, Write_buffer_size],
      by rw [List.foldl_cons, h2, Write_buffer_length], by
        rw [List.foldl_cons] at *; exact h3⟩

/-- A reader synchronised with the counter sees zero available bytes. -/
theorem synced_peek_empty (rb : LockFreeRingBuffer)
    (ht : rb.total_write_size < OVERFLOW_32BITS) :
    ((⟨rb.total_write_size⟩ : LockFreeRingBufferReader).PeekAvailable rb) =
      { ok := true, results := {},
        reader := ⟨rb.total_write_size⟩, overflow_calls := [] } := by
  have hgw : (⟨rb.total_write_size⟩ :
      LockFreeRingBufferReader).GetWriteTotal rb = rb.total_write_size := by
    refine GetWriteTotal_eq_total _ _ _ ?_ (Nat.le_refl _) ?_ ?_
    · exact (Nat.mod_eq_of_lt ht).symm
    · show rb.total_write_size < rb.total_write_size + OVERFLOW_32BITS
      omega
    · show rb.total_write_size < OVERFLOW_64BITS
      simp only [OVERFLOW_32BITS, OVERFLOW_64BITS] at *
      omega
  have hnb : (OVERFLOW_64BITS + rb.total_write_size - rb.total_write_size) %
      OVERFLOW_64BITS = 0 := by
    simp only [OVERFLOW_64BITS]
    omega
  have hg : (⟨rb.total_write_size⟩ :
      LockFreeRingBufferReader).GetNewBytesResetIfOverflow rb =
      { ok := true, new_bytes := 0, reader := ⟨rb.total_write_size⟩,
        overflow_calls := [] } := by
    simp only [LockFreeRingBufferReader.GetNewBytesResetIfOverflow, hgw,
      hnb]
    rw [if_neg (by omega)]
  simp only [LockFreeRingBufferReader.PeekAvailable, hg, if_true]
  rw [if_neg (show ¬ rb.buffer_size -
    rb.total_write_size % rb.buffer_size < 0 from by omega)]
  simp

/-- The reader constructor leaves `read_tail` at the buffer's current
32-bit write counter value. -/
theorem reader_init_eq (rb : LockFreeRingBuffer)
    (ht : rb.total_write_size < OVERFLOW_32BITS) :
    LockFreeRingBufferReader.init rb = ⟨rb.total_write_size⟩ := by
  simp only [LockFreeRingBufferReader.init]
  congr 1
  refine GetWriteTotal_eq_total _ _ _ ?_ ?_ ?_ ?_
  · exact (Nat.mod_eq_of_lt ht).symm
  · show 0 ≤ rb.total_write_size
    omega
  · show rb.total_write_size < 0 + OVERFLOW_32BITS
    omega
  · show rb.total_write_size < OVERFLOW_64BITS
    simp only [OVERFLOW_32BITS, OVERFLOW_64BITS] at *
    omega

/-- C10: after any prior sequence of writes, a newly constructed reader
starts at the buffer's current write total; its first peek succeeds with
two empty slices, and a peek after a subsequent write returns exactly
that write's bytes, so bytes written before construction are never
returned to the reader. -/
theorem c10_reader_init_skips_prior (N : Nat) (buf0 : List Nat)
    (ws : List (List Nat)) (hN0 : 0 < N) (hN32 : N < OVERFLOW_32BITS)
    (hbuf : buf0.length = N) :
    (LockFreeRingBufferReader.init
        (List.foldl LockFreeRingBuffer.Write ⟨buf0, N, 0⟩ ws)).read_tail =
      (List.foldl LockFreeRingBuffer.Write ⟨buf0, N, 0⟩
        ws).total_write_size ∧
    ((LockFreeRingBufferReader.init
        (List.foldl LockFreeRingBuffer.Write ⟨buf0, N, 0⟩ ws)).PeekAvailable
      (List.foldl LockFreeRingBuffer.Write ⟨buf0, N, 0⟩ ws)).ok = true ∧
    ((LockFreeRingBufferReader.init
        (List.foldl LockFreeRingBuffer.Write ⟨buf0, N, 0⟩ ws)).PeekAvailable
      (List.foldl LockFreeRingBuffer.Write ⟨buf0, N, 0⟩
        ws)).results.part1 = [] ∧
    ((LockFreeRingBufferReader.init
        (List.foldl LockFreeRingBuffer.Write ⟨buf0, N, 0⟩ ws)).PeekAvailable
      (List.foldl LockFreeRingBuffer.Write ⟨buf0, N, 0⟩
        ws)).results.part2 = [] ∧
    ∀ w : List Nat, w.length < N →
      ((LockFreeRingBufferReader.init
          (List.foldl LockFreeRingBuffer.Write ⟨buf0, N, 0⟩
            ws)).PeekAvailable
        ((List.foldl LockFreeRingBuffer.Write ⟨buf0, N, 0⟩
          ws).Write w)).results.part1 ++
      ((LockFreeRingBufferReader.init
          (List.foldl LockFreeRingBuffer.Write ⟨buf0, N, 0⟩
            ws)).PeekAvailable
        ((List.foldl LockFreeRingBuffer.Write ⟨buf0, N, 0⟩
          ws).Write w)).results.part2 = w := by
  obtain ⟨hbs, hbl, hc⟩ :=
    foldl_Write_invariants ws ⟨buf0, N, 0⟩ (by simp [OVERFLOW_32BITS])
  have hinit := reader_init_eq _ hc
  have hempty := synced_peek_empty _ hc
  refine ⟨by rw [hinit], by rw [hinit, hempty], by rw [hinit, hempty],
    by rw [hinit, hempty], ?_⟩
  intro w hw
  obtain ⟨-, h1, h2⟩ := synced_write_peek N
    (List.foldl LockFreeRingBuffer.Write ⟨buf0, N, 0⟩ ws).total_write_size
    (List.foldl LockFreeRingBuffer.Write ⟨buf0, N, 0⟩ ws).buffer w
    hN0 hN32 hc (by rw [hbl]; simpa using hbuf) hw
  rw [hinit]
  rw [show (List.foldl LockFreeRingBuffer.Write ⟨buf0, N, 0⟩ ws).Write w =
    LockFreeRingBuffer.Write
      ⟨(List.foldl LockFreeRingBuffer.Write ⟨buf0, N, 0⟩ ws).buffer,
        (List.foldl LockFreeRingBuffer.Write ⟨buf0, N, 0⟩ ws).buffer_size,
        (List.foldl LockFreeRingBuffer.Write ⟨buf0, N, 0⟩
          ws).total_write_size⟩ w from rfl] at *
  rw [hbs] at *
  rw [h1, h2, List.take_append_drop]

/-- Witness for C10: one prior 4-byte write, then a fresh reader and one
new 3-byte write. -/
theorem c10_reader_init_skips_prior_witness :
    (0 : Nat) < 16 ∧ (16 : Nat) < OVERFLOW_32BITS ∧
    (List.replicate 16 0 : List Nat).length = 16 ∧
    ((LockFreeRingBufferReader.init
        (List.foldl LockFreeRingBuffer.Write ⟨List.replicate 16 0, 16, 0⟩
          [[49, 50, 51, 52]])).read_tail =
      (List.foldl LockFreeRingBuffer.Write ⟨List.replicate 16 0, 16, 0⟩
        [[49, 50, 51, 52]]).total_write_size ∧
      ((LockFreeRingBufferReader.init
          (List.foldl LockFreeRingBuffer.Write ⟨List.replicate 16 0, 16, 0⟩
            [[49, 50, 51, 52]])).PeekAvailable
        (List.foldl LockFreeRingBuffer.Write ⟨List.replicate 16 0, 16, 0⟩
          [[49, 50, 51, 52]])).ok = true ∧
      ((LockFreeRingBufferReader.init
          (List.foldl LockFreeRingBuffer.Write ⟨List.replicate 16 0, 16, 0⟩
            [[49, 50, 51, 52]])).PeekAvailable
        (List.foldl LockFreeRingBuffer.Write ⟨List.replicate 16 0, 16, 0⟩
          [[49, 50, 51, 52]])).results.part1 = [] ∧
      ((LockFreeRingBufferReader.init
          (List.foldl LockFreeRingBuffer.Write ⟨List.replicate 16 0, 16, 0⟩
            [[49, 50, 51, 52]])).PeekAvailable
        (List.foldl LockFreeRingBuffer.Write ⟨List.replicate 16 0, 16, 0⟩
          [[49, 50, 51, 52]])).results.part2 = [] ∧
      ∀ w : List Nat, w.length < 16 →
        ((LockFreeRingBufferReader.init
            (List.foldl LockFreeRingBuffer.Write ⟨List.replicate 16 0, 16, 0⟩
              [[49, 50, 51, 52]])).PeekAvailable
          ((List.foldl LockFreeRingBuffer.Write ⟨List.replicate 16 0, 16, 0⟩
            [[49, 50, 51, 52]]).Write w)).results.part1 ++
        ((LockFreeRingBufferReader.init
            (List.foldl LockFreeRingBuffer.Write ⟨List.replicate 16 0, 16, 0⟩
              [[49, 50, 51, 52]])).PeekAvailable
          ((List.foldl LockFreeRingBuffer.Write ⟨List.replicate 16 0, 16, 0⟩
            [[49, 50, 51, 52]]).Write w)).results.part2 = w) :=
  ⟨by decide, by decide, by decide,
    c10_reader_init_skips_prior 16 (List.replicate 16 0) [[49, 50, 51, 52]]
      (by decide) (by decide) (by decide)⟩

/-! ### Serializers (min_logger.cpp) -/

/-- `convertNanoseconds` (min_logger.cpp:45-71): repeatedly divide by 1000
until the value fits in 0..999, capping at 999 seconds.
Scale: 0=ns, 1=us, 2=ms, 3=s. -/
def convertNanoseconds (ns : Nat) : Nat × Nat :=
  if 1000 ≤ ns then
    if 1000 ≤ ns / 1000 then
      if 1000 ≤ ns / 1000 / 1000 then
        if 999 < ns / 1000 / 1000 / 1000 then (3, 999)
        else (3, ns / 1000 / 1000 / 1000)
      else (2, ns / 1000 / 1000)
    else (1, ns / 1000)
  else (0, ns)

/-- C7: `convertNanoseconds ns` returns the pair `(scale, value)` with
`scale ≤ 3`, `value < 1000`, `value = ns / 1000 ^ scale` (equivalently
`value * 1000^scale ≤ ns < (value+1) * 1000^scale`) and `scale` the
smallest scale whose quotient fits below 1000 — except that every
`ns ≥ 10^12` is saturated to `(3, 999)`. -/
theorem c7_convert_nanoseconds (ns : Nat) (h64 : ns < OVERFLOW_64BITS) :
    (ns < 1000000000000 →
      (convertNanoseconds ns).1 ≤ 3 ∧
      (convertNanoseconds ns).2 < 1000 ∧
      (convertNanoseconds ns).2 = ns / 1000 ^ (convertNanoseconds ns).1 ∧
      1000 ^ (convertNanoseconds ns).1 * (convertNanoseconds ns).2 ≤ ns ∧
      ns < 1000 ^ (convertNanoseconds ns).1 *
        ((convertNanoseconds ns).2 + 1) ∧
      (∀ k, k < (convertNanoseconds ns).1 → ¬ ns / 1000 ^ k < 1000)) ∧
    (1000000000000 ≤ ns → convertNanoseconds ns = (3, 999)) := by
  simp only [convertNanoseconds]
  split_ifs with h1 h2 h3 h4
  · exact ⟨fun hlt => absurd hlt (by omega), fun _ => rfl⟩
  · refine ⟨fun hlt => ⟨by norm_num, by omega, ?_, ?_, ?_, ?_⟩,
      fun hge => absurd hge (by omega)⟩
    · rw [show (1000 : Nat) ^ 3 = 1000000000 from by norm_num]
      omega
    · rw [show (1000 : Nat) ^ 3 = 1000000000 from by norm_num]
      omega
    · rw [show (1000 : Nat) ^ 3 = 1000000000 from by norm_num]
      omega
    · intro k hk
      interval_cases k
      · rw [show (1000 : Nat) ^ 0 = 1 from by norm_num]
        omega
      · rw [show (1000 : Nat) ^ 1 = 1000 from by norm_num]
        omega
      · rw [show (1000 : Nat) ^ 2 = 1000000 from by norm_num]
        omega
  · refine ⟨fun hlt => ⟨by norm_num, by omega, ?_, ?_, ?_, ?_⟩,
      fun hge => absurd hge (by omega)⟩
    · rw [show (1000 : Nat) ^ 2 = 1000000 from by norm_num]
      omega
    · rw [show (1000 : Nat) ^ 2 = 1000000 from by norm_num]
      omega
    · rw [show (1000 : Nat) ^ 2 = 1000000 from by norm_num]
      omega
    · intro k hk
      interval_cases k
      · rw [show (1000 : Nat) ^ 0 = 1 from by norm_num]
        omega
      · rw [show (1000 : Nat) ^ 1 = 1000 from by norm_num]
        omega
  · refine ⟨fun hlt => ⟨by norm_num, by omega, ?_, ?_, ?_, ?_⟩,
      fun hge => absurd hge (by omega)⟩
    · rw [show (1000 : Nat) ^ 1 = 1000 from by norm_num]
    · rw [show (1000 : Nat) ^ 1 = 1000 from by norm_num]
      omega
    · rw [show (1000 : Nat) ^ 1 = 1000 from by norm_num]
      omega
    · intro k hk
      interval_cases k
      rw [show (1000 : Nat) ^ 0 = 1 from by norm_num]
      omega
  · refine ⟨fun hlt => ⟨by norm_num, by omega, ?_, ?_, ?_, ?_⟩,
      fun hge => absurd hge (by omega)⟩
    · rw [show (1000 : Nat) ^ 0 = 1 from by norm_num]
      omega
    · rw [show (1000 : Nat) ^ 0 = 1 from by norm_num]
      omega
    · rw [show (1000 : Nat) ^ 0 = 1 from by norm_num]
      omega
    · intro k hk
      omega

/-- Witness for C7 at `ns = 1500000` (1.5 ms, the S5 scenario input). -/
theorem c7_convert_nanoseconds_witness :
    (1500000 : Nat) < OVERFLOW_64BITS ∧
    ((1500000 < 1000000000000 →
      (convertNanoseconds 1500000).1 ≤ 3 ∧
      (convertNanoseconds 1500000).2 < 1000 ∧
      (convertNanoseconds 1500000).2 =
        1500000 / 1000 ^ (convertNanoseconds 1500000).1 ∧
      1000 ^ (convertNanoseconds 1500000).1 *
        (convertNanoseconds 1500000).2 ≤ 1500000 ∧
      1500000 < 1000 ^ (convertNanoseconds 1500000).1 *
        ((convertNanoseconds 1500000).2 + 1) ∧
      (∀ k, k < (convertNanoseconds 1500000).1 →
        ¬ 1500000 / 1000 ^ k < 1000)) ∧
    (1000000000000 ≤ 1500000 → convertNanoseconds 1500000 = (3, 999))) :=
  ⟨by decide, c7_convert_nanoseconds 1500000 (by decide)⟩

/-- Payload type tag of the serializer callback signature used by
min_logger.cpp (`MIN_LOGGER_PAYLOAD_NONE | STRING | U64`); `STRING`
marks variable-length payloads and `U64` and fixed-size values. -/
inductive PayloadType where
  | NONE
  | STRING
  | U64
deriving Repr, DecidableEq

/-- Little-endian byte decomposition of an `n`-byte machine integer, as
laid out in memory on the little-endian targets the wire formats are
specified for. -/
def leBytes : Nat → Nat → List Nat
  | 0, _ => []
  | n + 1, v => v % 256 :: leBytes n (v / 256)

theorem leBytes_length (n v : Nat) : (leBytes n v).length = n := by
  induction n generalizing v with
  | zero => rfl
  | succ n ih => simp [leBytes, ih]

/-- `BinaryMsgHeader::SYNC` (min_logger.cpp:147). -/
def BinaryMsgHeader.SYNC : Nat := 0xFAAF

/-- Byte image of `BinaryMsgHeader` (min_logger.cpp:145-154) under
`#pragma pack(1)`: `sync:u16 | payload_len:u8 | thread_id:u8 |
msg_id:u32 | timestamp:u64`, every field little-endian; 16 bytes in
total.  The u8 fields store their value reduced modulo 256, as the
C assignments truncate. -/
def BinaryMsgHeader.bytes (payload_len thread_id msg_id timestamp : Nat) :
    List Nat :=
  leBytes 2 BinaryMsgHeader.SYNC ++ [payload_len % 256] ++
    [thread_id % 256] ++ leBytes 4 msg_id ++ leBytes 8 timestamp

/-- `min_logger_default_binary_serializer` (min_logger.cpp:156-171): clip
the payload to `256 - sizeof(BinaryMsgHeader) = 240` bytes, fill the
header, and emit header followed by the payload in one
`min_logger_write` call.  The platform hooks `get_time_nanoseconds` and
`get_thread_idx` are passed in as the `timestamp` and `thread_idx`
parameters; the returned list is the byte buffer handed to
`min_logger_write`. -/
def min_logger_default_binary_serializer (msg_id : Nat)
    (payload_type : PayloadType) (payload : List Nat)
    (thread_idx timestamp : Nat) : List Nat :=
  let MAX_MSG_SIZE := 256
  let MAX_PAYLOAD_SIZE := MAX_MSG_SIZE - 16
  let payload_len :=
    if payload.length > MAX_PAYLOAD_SIZE then MAX_PAYLOAD_SIZE
    else payload.length
  BinaryMsgHeader.bytes payload_len thread_idx msg_id timestamp ++
    payload.take payload_len

/-- C8: the full-binary serializer emits the 16-byte header — sync word
`0xFAAF` little-endian, `payload_len` as u8, `thread_id` as u8, `msg_id`
as u32 LE, `timestamp` as u64 LE — immediately followed by the payload,
with `payload_len` clipped to 240 so a frame never exceeds 256 bytes; at
msg_id `0xDEADBEEF`, timestamp `0x0102030405060708`, thread slot 7 and
payload `"hi"` the frame is exactly
`AF FA 02 07 EF BE AD DE 08 07 06 05 04 03 02 01 68 69`. -/
theorem c8_full_binary_frame (msg_id ts thread_idx : Nat)
    (pt : PayloadType) (payload : List Nat) :
    min_logger_default_binary_serializer msg_id pt payload thread_idx ts =
      leBytes 2 0xFAAF ++ [min payload.length 240 % 256] ++
        [thread_idx % 256] ++ leBytes 4 msg_id ++ leBytes 8 ts ++
        payload.take 240 ∧
    (min_logger_default_binary_serializer msg_id pt payload thread_idx
      ts).length ≤ 256 ∧
    min_logger_default_binary_serializer 0xDEADBEEF PayloadType.STRING
        [0x68, 0x69] 7 0x0102030405060708 =
      [0xAF, 0xFA, 0x02, 0x07, 0xEF, 0xBE, 0xAD, 0xDE,
        0x08, 0x07, 0x06, 0x05, 0x04, 0x03, 0x02, 0x01, 0x68, 0x69] := by
  have htake : payload.take
      (if payload.length > 256 - 16 then 256 - 16 else payload.length) =
      payload.take 240 := by
    split_ifs with h
    · rfl
    · rw [List.take_of_length_le (by omega),
        List.take_of_length_le (by omega)]
  have hmin : (if payload.length > 256 - 16 then 256 - 16
      else payload.length) = min payload.length 240 := by
    split_ifs with h <;> omega
  refine ⟨?_, ?_, by decide⟩
  · simp only [min_logger_default_binary_serializer, BinaryMsgHeader.bytes,
      BinaryMsgHeader.SYNC, List.append_assoc]
    rw [htake, hmin]
  · simp only [min_logger_default_binary_serializer, BinaryMsgHeader.bytes,
      List.length_append, leBytes_length, List.length_cons,
      List.length_nil, List.length_take]
    split_ifs with h <;> omega

/-- Byte image of `MicroMessage` (min_logger.cpp:198-213) under
`#pragma pack(1)` on a little-endian target, with the constructor's
masks applied: bits 0..15 = `truncated_id` (the low 16 bits of the
message id), bits 16..19 = `thread_id & 0xF`, bits 20..21 =
`time_scale & 0x3`, bits 22..31 = `time_value & 0x3FF`, serialised as a
little-endian u32. -/
def MicroMessage.bytes (id thread scale value : Nat) : List Nat :=
  leBytes 4 (id % 65536 + thread % 16 * 65536 + scale % 4 * 1048576 +
    value % 1024 * 4194304)

/-- `min_logger_micro_binary_serializer` (min_logger.cpp:215-232).  The
atomic exchange on `last_timestamp_ns` and the clock read are passed in
as `last_ts`/`cur_ts`; elapsed time is zero on the initial call
(`last_ts = 0`) or when the clock went backwards.  The function writes
only the 4-byte `MicroMessage`: `payload_type`, `payload` and the
payload length play no part in the output. -/
def min_logger_micro_binary_serializer (msg_id : Nat)
    (payload_type : PayloadType) (payload : List Nat)
    (thread_idx last_ts cur_ts : Nat) : List Nat :=
  let elapsed_ns := if last_ts ≠ 0 ∧ cur_ts > last_ts then cur_ts - last_ts
    else 0
  let delta := convertNanoseconds elapsed_ns
  MicroMessage.bytes msg_id thread_idx delta.1 delta.2

/-- C6 (counterexample): at msg_id `0x12345678`, a 2-byte variable-length
payload `"hi"`, thread slot 3 and elapsed 1.5 ms, the micro-binary
serializer emits exactly the 4-byte header `78 56 63 00`; no header
followed by a length byte and the payload bytes is emitted. -/
theorem c6_micro_length_prefix_counterexample :
    min_logger_micro_binary_serializer 0x12345678 PayloadType.STRING
      [0x68, 0x69] 3 1 1500001 = [0x78, 0x56, 0x63, 0x00] ∧
    ¬ ∃ hdr : List Nat,
      min_logger_micro_binary_serializer 0x12345678 PayloadType.STRING
        [0x68, 0x69] 3 1 1500001 = hdr ++ [2, 0x68, 0x69] := by
  refine ⟨by decide, ?_⟩
  rintro ⟨hdr, heq⟩
  rw [show (min_logger_micro_binary_serializer 0x12345678
    PayloadType.STRING [0x68, 0x69] 3 1 1500001) =
    [0x78, 0x56, 0x63, 0x00] from by decide] at heq
  have hlen := congrArg List.length heq
  simp only [List.length_append, List.length_cons, List.length_nil]
    at hlen
  obtain ⟨a, rfl⟩ := List.length_eq_one.mp (show hdr.length = 1 by omega)
  simp at heq

/-- C6 (amended): every micro-binary serializer call emits exactly the
4-byte bit-packed header; the payload (of any type or length) is never
emitted and no length byte is emitted. -/
theorem c6_micro_serializer_header_only (msg_id : Nat)
    (payload_type : PayloadType) (payload : List Nat)
    (thread_idx last_ts cur_ts : Nat) :
    (min_logger_micro_binary_serializer msg_id payload_type payload
      thread_idx last_ts cur_ts).length = 4 ∧
    min_logger_micro_binary_serializer msg_id payload_type payload
        thread_idx last_ts cur_ts =
      min_logger_micro_binary_serializer msg_id payload_type []
        thread_idx last_ts cur_ts := by
  exact ⟨leBytes_length 4 _, rfl⟩

/-! ### Thread-name broadcast (min_logger.cpp:12-22, 73-82) -/

/-- `THREAD_NAME_MSG_ID` (min_logger.cpp:12). -/
def THREAD_NAME_MSG_ID : Nat := 0xFFFFFF00

/-- The broadcast counters: the process-wide `name_broadcast_count`
(`std::atomic<unsigned>`, min_logger.cpp:17) and the per-thread
`thread_local local_name_broadcast_count` (min_logger.cpp:20), indexed
by thread. Both are 32-bit unsigned and wrap modulo `2^32`. -/
structure NameBroadcastState where
  name_broadcast_count : Nat
  local_name_broadcast_count : Nat → Nat

/-- `min_logger_write_thread_names` (min_logger.cpp:22): increment the
process-wide counter (wrapping unsigned increment). -/
def min_logger_write_thread_names (s : NameBroadcastState) :
    NameBroadcastState :=
  { s with name_broadcast_count :=
      (s.name_broadcast_count + 1) % OVERFLOW_32BITS }

/-- Modelled from the spec: the call wiring of the serializer entry is
not under src — §4.3 requires every serializer to "Call
send_thread_name_if_needed before the user payload", and the snapshot's
serializer bodies and log macros predate/postdate that wiring.  The
function below is one serializer invocation by thread `tid`: the `if`
is `send_thread_name_if_needed` from min_logger.cpp:73-82 (compare the
thread-local counter to the global one; on mismatch update the local
counter first, read the thread name via the `names` hook, and emit a
`THREAD_NAME_MSG_ID` frame through the same serializer — the recursive
call), followed by the user frame.  Frames are `(msg_id, payload)`
pairs in emission order; `fuel` bounds the recursion depth, and the
theorems show any `fuel ≥ 2` gives the same result. -/
def serializeWithThreadNames (names : Nat → List Nat) :
    Nat → NameBroadcastState → Nat → Nat → List Nat →
    NameBroadcastState × List (Nat × List Nat)
  | 0, s, _, _, _ => (s, [])
  | fuel + 1, s, tid, msg_id, payload =>
    if s.local_name_broadcast_count tid ≠ s.name_broadcast_count then
      let s1 : NameBroadcastState :=
        { s with local_name_broadcast_count := fun thread =>
            if thread = tid then s.name_broadcast_count
            else s.local_name_broadcast_count thread }
      let r := serializeWithThreadNames names fuel s1 tid
        THREAD_NAME_MSG_ID (names tid)
      (r.1, r.2 ++ [(msg_id, payload)])
    else
      (s, [(msg_id, payload)])

/-- A thread whose local counter matches the global one emits only its
user frame and changes nothing. -/
theorem serializeWithThreadNames_synced (names : Nat → List Nat)
    (fuel : Nat) (st : NameBroadcastState) (tid mid : Nat) (pl : List Nat)
    (hf : 1 ≤ fuel)
    (hs : st.local_name_broadcast_count tid = st.name_broadcast_count) :
    serializeWithThreadNames names fuel st tid mid pl =
      (st, [(mid, pl)]) := by
  obtain ⟨f, rfl⟩ : ∃ f, fuel = f + 1 := ⟨fuel - 1, by omega⟩
  simp [serializeWithThreadNames, hs]

/-- A thread whose local counter differs from the global one emits the
thread-name announcement frame, then its user frame, and afterwards its
local counter matches; the nested serializer call does not announce
again because the local counter is updated before it. -/
theorem serializeWithThreadNames_stale (names : Nat → List Nat)
    (fuel : Nat) (st : NameBroadcastState) (tid mid : Nat) (pl : List Nat)
    (hf : 2 ≤ fuel)
    (hs : st.local_name_broadcast_count tid ≠ st.name_broadcast_count) :
    serializeWithThreadNames names fuel st tid mid pl =
      ({ st with local_name_broadcast_count := fun thread =>
          if thread = tid then st.name_broadcast_count
          else st.local_name_broadcast_count thread },
        [(THREAD_NAME_MSG_ID, names tid), (mid, pl)]) := by
  obtain ⟨f, rfl⟩ : ∃ f, fuel = f + 2 := ⟨fuel - 2, by omega⟩
  rw [show f + 2 = (f + 1) + 1 from rfl]
  rw [serializeWithThreadNames]
  rw [if_pos hs]
  have hsyn := serializeWithThreadNames_synced names (f + 1)
    { st with local_name_broadcast_count := fun thread =>
        if thread = tid then st.name_broadcast_count
        else st.local_name_broadcast_count thread } tid
    THREAD_NAME_MSG_ID (names tid) (by omega) (by simp)
  simp [hsyn]

/-- C9: after `min_logger_write_thread_names`, the next serializer call
of each live, previously synchronised thread emits exactly one
thread-name announcement frame (msg_id `0xFFFFFF00`) before its user
frame; further calls by that thread emit no announcement until the next
request, another thread's next call still announces, and any recursion
fuel `≥ 2` computes the same result — the announcement path cannot
recurse indefinitely because the thread-local counter is updated before
the nested serializer call. -/
theorem c9_thread_name_broadcast (names : Nat → List Nat)
    (s : NameBroadcastState) (tid tid2 m m2 m3 : Nat)
    (p p2 p3 : List Nat)
    (hg : s.name_broadcast_count < OVERFLOW_32BITS)
    (hsync : s.local_name_broadcast_count tid = s.name_broadcast_count)
    (hsync2 : s.local_name_broadcast_count tid2 = s.name_broadcast_count)
    (hne : tid2 ≠ tid) :
    (serializeWithThreadNames names 2 (min_logger_write_thread_names s)
      tid m p).2 = [(THREAD_NAME_MSG_ID, names tid), (m, p)] ∧
    (serializeWithThreadNames names 2
      (serializeWithThreadNames names 2 (min_logger_write_thread_names s)
        tid m p).1 tid m2 p2).2 = [(m2, p2)] ∧
    (serializeWithThreadNames names 2
      (serializeWithThreadNames names 2 (min_logger_write_thread_names s)
        tid m p).1 tid2 m3 p3).2 =
      [(THREAD_NAME_MSG_ID, names tid2), (m3, p3)] ∧
    (∀ fuel, 2 ≤ fuel →
      serializeWithThreadNames names fuel
        (min_logger_write_thread_names s) tid m p =
      serializeWithThreadNames names 2
        (min_logger_write_thread_names s) tid m p) := by
  have hbump : (s.name_broadcast_count + 1) % OVERFLOW_32BITS ≠
      s.name_broadcast_count := by
    simp only [OVERFLOW_32BITS] at *
    omega
  have hstale1 : (min_logger_write_thread_names
      s).local_name_broadcast_count tid ≠
      (min_logger_write_thread_names s).name_broadcast_count := by
    simp only [min_logger_write_thread_names, hsync]
    exact fun hcontra => hbump hcontra.symm
  have h1 := serializeWithThreadNames_stale names 2
    (min_logger_write_thread_names s) tid m p (by omega) hstale1
  refine ⟨by rw [h1], ?_, ?_, ?_⟩
  · rw [h1]
    exact congrArg Prod.snd (serializeWithThreadNames_synced names 2 _
      tid m2 p2 (by omega) (by simp))
  · rw [h1]
    refine congrArg Prod.snd (serializeWithThreadNames_stale names 2 _
      tid2 m3 p3 (by omega) ?_)
    show (if tid2 = tid then _ else
      s.local_name_broadcast_count tid2) ≠ _
    rw [if_neg hne, hsync2]
    simp only [min_logger_write_thread_names]
    exact fun hcontra => hbump hcontra.symm
  · intro fuel hf
    rw [serializeWithThreadNames_stale names fuel
      (min_logger_write_thread_names s) tid m p hf hstale1, h1]

/-- Witness for C9: two threads (0 and 1) starting synchronised at
count 0, one request, then calls by thread 0, thread 0 again, and
thread 1. -/
theorem c9_thread_name_broadcast_witness :
    (0 : Nat) < OVERFLOW_32BITS ∧
    ((⟨0, fun _ => 0⟩ :
      NameBroadcastState).local_name_broadcast_count 0 = 0) ∧
    ((⟨0, fun _ => 0⟩ :
      NameBroadcastState).local_name_broadcast_count 1 = 0) ∧
    (1 : Nat) ≠ 0 ∧
    ((serializeWithThreadNames (fun i => [65 + i]) 2
      (min_logger_write_thread_names ⟨0, fun _ => 0⟩) 0 5 [10]).2 =
      [(THREAD_NAME_MSG_ID, [65]), (5, [10])] ∧
    (serializeWithThreadNames (fun i => [65 + i]) 2
      (serializeWithThreadNames (fun i => [65 + i]) 2
        (min_logger_write_thread_names ⟨0, fun _ => 0⟩) 0 5 [10]).1
      0 6 [11]).2 = [(6, [11])] ∧
    (serializeWithThreadNames (fun i => [65 + i]) 2
      (serializeWithThreadNames (fun i => [65 + i]) 2
        (min_logger_write_thread_names ⟨0, fun _ => 0⟩) 0 5 [10]).1
      1 7 [12]).2 = [(THREAD_NAME_MSG_ID, [65 + 1]), (7, [12])] ∧
    (∀ fuel, 2 ≤ fuel →
      serializeWithThreadNames (fun i => [65 + i]) fuel
        (min_logger_write_thread_names ⟨0, fun _ => 0⟩) 0 5 [10] =
      serializeWithThreadNames (fun i => [65 + i]) 2
        (min_logger_write_thread_names ⟨0, fun _ => 0⟩) 0 5 [10])) :=
  ⟨by decide, rfl, rfl, by decide,
    c9_thread_name_broadcast (fun i => [65 + i]) ⟨0, fun _ => 0⟩
      0 1 5 6 7 [10] [11] [12] (by decide) rfl rfl (by decide)⟩
